import Mathlib

/-!
Shallow embedding of the pyHIPIFY rewrite engine (`cuda_to_hip.py`).

The embedding models, character-for-character, the three text passes of the
script and the statistics they accumulate:

* `processKernelLaunches` — the kernel-launch rewriter built on the Python
  regular expression `(\w+)(<.*>)[\n|\\| ]+<<<(.*)>>>\(` and the inner
  `create_hip_kernel` callback;
* `disable_asserts` — the assert neutralizer built on the regular expression
  `(^|[^a-zA-Z0-9_.\n]+)(assert)([^a-zA-Z0-9_.\n]+)`;
* `substPass` — the per-file mapping loop of `preprocessor`, which performs a
  substring presence check, records unsupported symbols, and applies the
  whole-token substitution `re.sub(r'\b(KEY)\b', VALUE, text)`.

Python regular expressions are embedded by explicit backtracking matchers:
each greedy quantifier over a character class tries the longest feasible
count first (`descend`/`runLen`), exactly as the CPython `re` engine does,
and `re.sub` is embedded as a left-to-right scan that tries the pattern at
every position and continues after the end of each match.  `\w` and `\b`
follow the Python 2 ASCII semantics used by the script (word characters are
`[A-Za-z0-9_]`); the `\b(KEY)\b` embedding is faithful for keys made of word
characters, which is the shape of every CUDA identifier in the mapping table.
The mapping table itself lives in a separate module of the project
(`cuda_to_hip_mappings`), so passes are parameterised by an explicit list of
entries, as the specification's data model describes.

File writing in `preprocessor` happens only after all passes succeed, so the
on-disk result of a run is modelled by `fileAfterRun`: the transformed text on
success, the original text when a pass raises.
-/

namespace Hipify

abbrev Chars := List Char

/-- Word characters of Python 2 ASCII `\w`: `[A-Za-z0-9_]`. -/
def isWordChar (c : Char) : Bool :=
  ('a' ≤ c && c ≤ 'z') || ('A' ≤ c && c ≤ 'Z') || ('0' ≤ c && c ≤ '9') || c == '_'

/-- Characters matched by `.` in a Python regex without `re.DOTALL`: anything but newline. -/
def dotChar (c : Char) : Bool := !(c == '\n')

/-- The character class `[\n|\\| ]` separating the template list from `<<<` in the
kernel-launch regex (line 137 of `cuda_to_hip.py`). -/
def sepChar (c : Char) : Bool := c == '\n' || c == '|' || c == '\\' || c == ' '

/-- Identifier characters of the assert regex classes: `[a-zA-Z0-9_.]`. -/
def isIdentDotChar (c : Char) : Bool := isWordChar c || c == '.'

/-- The character class `[^a-zA-Z0-9_.\n]` of the assert regex (line 149). -/
def aboundChar (c : Char) : Bool := !isIdentDotChar c && !(c == '\n')

/-- Whitespace stripped by Python 2 `str.strip()`. -/
def pyWS (c : Char) : Bool :=
  c == ' ' || c == '\t' || c == '\n' || c == '\r' || c == '\x0b' || c == '\x0c'

/-- Length of the longest prefix of `cs` whose characters all satisfy `p`. -/
def runLen (p : Char → Bool) : Chars → Nat
  | [] => 0
  | c :: cs => if p c then runLen p cs + 1 else 0

/-- The list `[n, n-1, ..., lo]` (empty when `n < lo`): the candidate lengths a
greedy quantifier tries, longest first. -/
def descend (n lo : Nat) : List Nat :=
  (List.range (n + 1 - lo)).map (fun i => n - i)

/-- Boolean test that `pat` is a leading segment of `cs`. -/
def leadsWith : Chars → Chars → Bool
  | [], _ => true
  | _ :: _, [] => false
  | a :: as, b :: bs => a == b && leadsWith as bs

/-- Boolean test that `key` occurs somewhere in `cs` (Python's `in` / `str.find > -1`). -/
def containsSubL (key : Chars) : Chars → Bool
  | [] => key.isEmpty
  | c :: rest => leadsWith key (c :: rest) || containsSubL key rest

/-- Python `str.replace(pat, "")`: remove every non-overlapping occurrence of `pat`,
scanning left to right.  Fueled by the input length (each step consumes at least
one character for non-empty `pat`). -/
def removeOcc (pat : Chars) : Nat → Chars → Chars
  | 0, cs => cs
  | _ + 1, [] => []
  | fuel + 1, c :: rest =>
    if !pat.isEmpty && leadsWith pat (c :: rest) then
      removeOcc pat fuel ((c :: rest).drop pat.length)
    else
      c :: removeOcc pat fuel rest

def removeAllOcc (pat cs : Chars) : Chars := removeOcc pat cs.length cs

/-- Python `str.split(",")`. -/
def splitOnComma : Chars → List Chars
  | [] => [[]]
  | c :: rest =>
    let r := splitOnComma rest
    if c == ',' then [] :: r
    else
      match r with
      | [] => [[c]]
      | h :: t => (c :: h) :: t

/-- Python `", ".join(...)`. -/
def joinCommaSpace : List Chars → Chars
  | [] => []
  | [x] => x
  | x :: y :: xs => x ++ ',' :: ' ' :: joinCommaSpace (y :: xs)

/-- Python `str.strip()`. -/
def stripWS (cs : Chars) : Chars :=
  ((cs.dropWhile pyWS).reverse.dropWhile pyWS).reverse

/-- Effect of `re.sub(' +', ' ', s)` (line 130): collapse each run of spaces to a
single space, here by dropping every space that is followed by another space. -/
def collapseSpaces : Chars → Chars
  | [] => []
  | c :: rest =>
    if c == ' ' && rest.head? == some ' ' then collapseSpaces rest
    else c :: collapseSpaces rest

/-- Match a single expected character, returning the remainder. -/
def expectChar (c : Char) : Chars → Option Chars
  | x :: xs => if x == c then some xs else none
  | [] => none

/-- Match an expected literal string, returning the remainder. -/
def expectStr (pat cs : Chars) : Option Chars :=
  if leadsWith pat cs then some (cs.drop pat.length) else none

/-- Attempt of the regex `(\w+)(<.*>)[\n|\\| ]+<<<(.*)>>>\(` at the start of `cs`
(line 137 of `cuda_to_hip.py`), with CPython backtracking semantics: every greedy
quantifier is over a single character class, so it tries the longest feasible
count first and backtracks through `descend`.  Returns the three groups and the
total matched length. -/
def matchLaunchAt (cs : Chars) : Option (Chars × Chars × Chars × Nat) :=
  (descend (runLen isWordChar cs) 1).findSome? fun i =>
    (expectChar '<' (cs.drop i)).bind fun r2 =>
      (descend (runLen dotChar r2) 0).findSome? fun j =>
        (expectChar '>' (r2.drop j)).bind fun r3 =>
          (descend (runLen sepChar r3) 1).findSome? fun k =>
            (expectStr "<<<".toList (r3.drop k)).bind fun r4 =>
              (descend (runLen dotChar r4) 0).findSome? fun m =>
                (expectStr ">>>(".toList (r4.drop m)).map fun _ =>
                  (cs.take i, '<' :: (r2.take j ++ ['>']), r4.take m,
                   i + j + k + m + 9)

/-- The comma-split parameter list of a matched launch (line 119): strip the
`<<<`/`>>>` markers from the matched parameter text and split on commas. -/
def splitParams (g3 : Chars) : List Chars :=
  splitOnComma (removeAllOcc ">>>".toList (removeAllOcc "<<<".toList g3))

/-- Lines 119–124 of `create_hip_kernel`: wrap the first two comma-separated
entries in `dim3(...)` (after `strip()`), and extend the list to four entries
with `"0"` via the slice assignment
`params[len(params):4] = ["0"] * (4 - len(params))` (which, in `Nat`
subtraction just as in Python, appends nothing when the list already has four or
more entries).  Accessing `params[1]` on a list with fewer than two entries
raises `IndexError` in Python, embedded as `Except.error`. -/
def padTo4 (l : List Chars) : List Chars :=
  l ++ List.replicate (4 - l.length) "0".toList

/-- Wrap the first two launch parameters in `dim3(...)` and zero-fill through
`padTo4`; fewer than two comma-separated entries is the Python `IndexError`. -/
def normalizeLaunchParams (g3 : Chars) : Except String (List Chars) :=
  match splitParams g3 with
  | a :: b :: rest =>
    .ok (padTo4 (("dim3(".toList ++ stripWS a ++ [')']) ::
                 ("dim3(".toList ++ stripWS b ++ [')']) :: rest))
  | _ => .error "IndexError: list assignment index out of range"

/-- The `create_hip_kernel` callback (lines 113–134): build
`"hipLaunchKernelGGL((%s%s), %s, "` from the kernel name, template group and
normalized launch parameters, then collapse runs of spaces. -/
def create_hip_kernel (g1 g2 g3 : Chars) : Except String Chars :=
  match normalizeLaunchParams g3 with
  | .error e => .error e
  | .ok ps =>
    .ok (collapseSpaces
      ("hipLaunchKernelGGL((".toList ++ g1 ++ g2 ++ "), ".toList ++
        joinCommaSpace ps ++ ", ".toList))

/-- The `re.sub` scan of line 137: try the launch pattern at every position, left
to right; on a match, emit the `create_hip_kernel` replacement (recording it in
the statistics) and continue after the match; otherwise copy one character.  An
`IndexError` raised by the callback aborts the whole substitution, as in Python.
Fueled by the input length (every step consumes at least one character). -/
def kernelSub : Nat → Chars → Except String (Chars × List Chars)
  | 0, cs => .ok (cs, [])
  | _ + 1, [] => .ok ([], [])
  | fuel + 1, c :: rest =>
    match matchLaunchAt (c :: rest) with
    | some (g1, g2, g3, n) =>
      match create_hip_kernel g1 g2 g3 with
      | .error e => .error e
      | .ok hip =>
        match kernelSub fuel ((c :: rest).drop n) with
        | .error e => .error e
        | .ok (out, st) => .ok (hip ++ out, hip :: st)
    | none =>
      match kernelSub fuel rest with
      | .error e => .error e
      | .ok (out, st) => .ok (c :: out, st)

/-- The sequence of group triples the kernel-launch scan visits, in order: a
side-effect-free mirror of `kernelSub` used to state which launches the rewriter
matches. -/
def kernelScanMatches : Nat → Chars → List (Chars × Chars × Chars)
  | 0, _ => []
  | _ + 1, [] => []
  | fuel + 1, c :: rest =>
    match matchLaunchAt (c :: rest) with
    | some (g1, g2, g3, n) => (g1, g2, g3) :: kernelScanMatches fuel ((c :: rest).drop n)
    | none => kernelScanMatches fuel rest

/-- `processKernelLaunches` (lines 111–139): the full kernel-launch rewrite of a
string, returning the rewritten text and the `kernel_launches` statistics, or the
Python exception. -/
def processKernelLaunches (s : String) : Except String (String × List String) :=
  match kernelSub s.toList.length s.toList with
  | .error e => .error e
  | .ok (out, st) => .ok (out.asString, st.map List.asString)

/-- Attempt of `(assert)([^a-zA-Z0-9_.\n]+)` directly at `cs`, to be used after a
left-boundary alternative has matched and produced group 1.  Group 3 is greedy
and must be non-empty.  Returns groups 1 and 3 and the total matched length. -/
def matchAssertTail (g1 cs : Chars) : Option (Chars × Chars × Nat) :=
  if leadsWith "assert".toList cs then
    if runLen aboundChar (cs.drop 6) == 0 then none
    else some (g1, (cs.drop 6).take (runLen aboundChar (cs.drop 6)),
               g1.length + 6 + runLen aboundChar (cs.drop 6))
  else none

/-- Attempt of the regex `(^|[^a-zA-Z0-9_.\n]+)(assert)([^a-zA-Z0-9_.\n]+)`
(line 149) at the start of `cs`.  The alternation tries `^` first, which matches
only at the very start of the string (`atStart`), then a non-empty greedy run of
boundary characters. -/
def matchAssertAt (atStart : Bool) (cs : Chars) : Option (Chars × Chars × Nat) :=
  match atStart, matchAssertTail [] cs with
  | true, some r => some r
  | _, _ =>
    (descend (runLen aboundChar cs) 1).findSome? fun i =>
      matchAssertTail (cs.take i) (cs.drop i)

/-- The `re.sub` scan of `disable_asserts`: on a match, emit
`group(1) + "//" + "assert" + group(3)` (the `whitelist` callback, line 147) and
continue after the match; otherwise copy one character.  `^` can only fire at
position zero. -/
def assertSub : Nat → Bool → Chars → Chars
  | 0, _, cs => cs
  | _ + 1, _, [] => []
  | fuel + 1, atStart, c :: rest =>
    match matchAssertAt atStart (c :: rest) with
    | some (g1, g3, n) =>
      g1 ++ '/' :: '/' :: "assert".toList ++ g3 ++ assertSub fuel false ((c :: rest).drop n)
    | none => c :: assertSub fuel false rest

/-- `disable_asserts` (lines 142–149). -/
def disable_asserts (s : String) : String :=
  (assertSub s.toList.length true s.toList).asString

/-- Test that an optional adjacent character allows a `\b` word boundary: the
ends of the string qualify, as does any non-word character. -/
def nonWordOpt : Option Char → Bool
  | none => true
  | some c => !isWordChar c

/-- A whole-token occurrence of `key` at the head of `cs`, given the original
character just before this position: this is where `\b(KEY)\b` matches for a key
made of word characters. -/
def tokenHit (key : Chars) (prev : Option Char) (cs : Chars) : Bool :=
  leadsWith key cs && nonWordOpt prev && nonWordOpt (cs.drop key.length).head?

/-- The scan of `re.sub(r'\b(KEY)\b', VALUE, text)` (lines 172–175): boundaries
are evaluated against the original text, so after a replacement the previous
character becomes the last character of the key.  Fueled by the input length. -/
def replaceScan (key repl : Chars) : Nat → Option Char → Chars → Chars
  | 0, _, cs => cs
  | _ + 1, _, [] => []
  | fuel + 1, prev, c :: rest =>
    if tokenHit key prev (c :: rest) then
      repl ++ replaceScan key repl fuel key.getLast? ((c :: rest).drop key.length)
    else
      c :: replaceScan key repl fuel (some c) rest

/-- Whole-token replacement of one mapping key in a text. -/
def replaceTokens (key repl text : String) : String :=
  (replaceScan key.toList repl.toList text.toList.length none text.toList).asString

/-- Whether some position of `cs` carries a whole-token occurrence of `key`,
threading the preceding character exactly as `replaceScan` does. -/
def hasTokenOcc (key : Chars) : Option Char → Chars → Bool
  | _, [] => false
  | prev, c :: rest => tokenHit key prev (c :: rest) || hasTokenOcc key (some c) rest

/-- One entry of the external `CUDA_TO_HIP_MAPPINGS` table: a source symbol, its
replacement (`value[0]`), and whether the metadata carries
`constants.HIP_UNSUPPORTED`. -/
structure Mapping where
  key : String
  value : String
  unsupported : Bool

/-- Substring presence check on strings (Python `in` / `str.find(...) > -1`). -/
def containsSub (key text : String) : Bool :=
  containsSubL key.toList text.toList

/-- One iteration of the mapping loop of `preprocessor` (lines 158–175): if the
key occurs as a substring of the current text, first record `(key, file)` in the
`unsupported_calls` statistics when the entry is flagged unsupported, then apply
the whole-token substitution. -/
def applyMapping (file : String) (st : String × List (String × String)) (m : Mapping) :
    String × List (String × String) :=
  (if containsSub m.key st.1 then replaceTokens m.key m.value st.1 else st.1,
   if containsSub m.key st.1 && m.unsupported then st.2 ++ [(m.key, file)] else st.2)

/-- The identifier-substitution pass of `preprocessor`: fold the mapping entries,
in table order, over the text and the unsupported-call statistics. -/
def substPass (table : List Mapping) (file text : String) :
    String × List (String × String) :=
  table.foldl (applyMapping file) (text, [])

def substPassText (table : List Mapping) (file text : String) : String :=
  (substPass table file text).1

def substPassStats (table : List Mapping) (file text : String) :
    List (String × String) :=
  (substPass table file text).2

/-- The in-memory transformation of `preprocessor` (lines 152–190): identifier
substitution, then kernel-launch rewriting, then assert neutralization.  A
Python exception in the kernel pass propagates and aborts the file. -/
def preprocessorE (table : List Mapping) (file text : String) :
    Except String (String × List (String × String) × List String) :=
  match processKernelLaunches (substPassText table file text) with
  | .error e => .error e
  | .ok (t2, kl) => .ok (disable_asserts t2, substPassStats table file text, kl)

/-- The file contents after a run of `preprocessor`: the file is written only
after all passes finish (lines 184–186), so on an exception the contents are
unchanged. -/
def fileAfterRun (table : List Mapping) (file text : String) : String :=
  match preprocessorE table file text with
  | .error _ => text
  | .ok (out, _, _) => out

theorem mem_descend_le {n lo i : Nat} (h : i ∈ descend n lo) : i ≤ n := by
  unfold descend at h
  rcases List.mem_map.mp h with ⟨k, _, hk⟩
  omega

theorem runLen_le_length (p : Char → Bool) : ∀ cs : Chars, runLen p cs ≤ cs.length := by
  intro cs
  induction cs with
  | nil => simp [runLen]
  | cons a tl ih =>
    by_cases hp : p a = true
    · simp only [runLen, if_pos hp, List.length_cons]
      exact Nat.succ_le_succ ih
    · simp only [runLen, if_neg hp]
      exact Nat.zero_le _

theorem all_take_of_le_runLen (p : Char → Bool) :
    ∀ (cs : Chars) (i : Nat), i ≤ runLen p cs → ∀ c ∈ cs.take i, p c = true := by
  intro cs
  induction cs with
  | nil =>
    intro i _ c hc
    simp at hc
  | cons a tl ih =>
    intro i hi c hc
    by_cases hp : p a = true
    · rw [runLen, if_pos hp] at hi
      cases i with
      | zero => simp at hc
      | succ i2 =>
        rw [List.take_succ_cons] at hc
        rcases List.mem_cons.mp hc with h1 | h1
        · rw [h1]; exact hp
        · exact ih i2 (Nat.le_of_succ_le_succ hi) c h1
    · rw [runLen, if_neg hp] at hi
      rw [Nat.le_zero.mp hi] at hc
      simp at hc

/-- C1: For the input `myKernel<<<grid, block>>>(a, b);` — a kernel launch with no
template argument list and no whitespace before the launch marker — the rewriter of
`cuda_to_hip.py` leaves the text unchanged and records no kernel-launch statistic,
because its pattern demands a mandatory `(<.*>)` template group followed by at
least one character of `[\n|\\| ]` before `<<<`; in particular the output is not
the `hipLaunchKernelGGL` form the claim describes. -/
theorem c1_minimal_launch_unchanged :
    processKernelLaunches "myKernel<<<grid, block>>>(a, b);" =
      .ok ("myKernel<<<grid, block>>>(a, b);", []) ∧
    "myKernel<<<grid, block>>>(a, b);" ≠
      "hipLaunchKernelGGL((myKernel), dim3(grid), dim3(block), 0, 0, a, b);" := by
  exact ⟨by rfl, by decide⟩

/-- C2 counterexample: with the template arguments immediately followed by the
launch marker (no intervening whitespace), the rewriter leaves the text unchanged
and records no statistic — it does not produce the claimed `hipLaunchKernelGGL`
call, because the pattern requires at least one `[\n|\\| ]` character between the
template group and `<<<`. -/
theorem c2_counterexample :
    processKernelLaunches "foo<Bar><<<g, b, 128, stream1>>>(x);" =
      .ok ("foo<Bar><<<g, b, 128, stream1>>>(x);", []) ∧
    "foo<Bar><<<g, b, 128, stream1>>>(x);" ≠
      "hipLaunchKernelGGL((foo<Bar>), dim3(g), dim3(b), 128, stream1, x);" := by
  exact ⟨by rfl, by decide⟩

/-- C2 (amended): with at least one whitespace character between the template
argument list and the launch marker, `foo<Bar> <<<g, b, 128, stream1>>>(x);` is
rewritten to `hipLaunchKernelGGL((foo<Bar>), dim3(g), dim3(b), 128, stream1, x);`,
and that launch prefix is recorded in the kernel-launch statistics. -/
theorem c2_space_form_rewrite :
    processKernelLaunches "foo<Bar> <<<g, b, 128, stream1>>>(x);" =
      .ok ("hipLaunchKernelGGL((foo<Bar>), dim3(g), dim3(b), 128, stream1, x);",
           ["hipLaunchKernelGGL((foo<Bar>), dim3(g), dim3(b), 128, stream1, "]) := by
  rfl

/-- C3 counterexample: with the single-entry table mapping `cudaMalloc` to
`hipMalloc`, the occurrence of `cudaMalloc` immediately preceded by a `.` in
`a.cudaMalloc(x);` is substituted — Python's `\b` treats `.` as a token boundary —
contradicting the claim that such an occurrence is left unchanged. -/
theorem c3_counterexample :
    substPassText [⟨"cudaMalloc", "hipMalloc", false⟩] "f.cu" "a.cudaMalloc(x);" =
      "a.hipMalloc(x);" ∧
    "a.hipMalloc(x);" ≠ "a.cudaMalloc(x);" := by
  exact ⟨by decide, by decide⟩

/-- C4 counterexample: the launch `foo<T> <<<a,b,c,d,e>>>(x` is matched by the
rewriter with parameter text `a,b,c,d,e`, and its normalized launch-configuration
list has five elements, not four — the slice assignment
`params[len(params):4] = ["0"] * (4 - len(params))` never truncates a list longer
than four. -/
theorem c4_counterexample :
    matchLaunchAt "foo<T> <<<a,b,c,d,e>>>(x".toList =
      some ("foo".toList, "<T>".toList, "a,b,c,d,e".toList, 23) ∧
    normalizeLaunchParams "a,b,c,d,e".toList =
      .ok ["dim3(a)".toList, "dim3(b)".toList, "c".toList, "d".toList, "e".toList] ∧
    ¬ (["dim3(a)".toList, "dim3(b)".toList, "c".toList, "d".toList,
        "e".toList] : List Chars).length = 4 := by
  exact ⟨by decide, by rfl, by decide⟩

/-- C6: applying identifier substitution with the single-entry table mapping
`cudaMalloc` to `hipMalloc` to `cudaMallocManaged(&p, n);` leaves the text
unchanged: the occurrence of the key is followed by the word character `M`, so the
`\b`-anchored substitution does not fire inside the longer identifier. -/
theorem c6_no_substring_match :
    substPassText [⟨"cudaMalloc", "hipMalloc", false⟩] "f.cu"
        "cudaMallocManaged(&p, n);" =
      "cudaMallocManaged(&p, n);" := by
  decide

/-- C8 counterexample: an `assert` token bounded on the left by a newline — a
character outside the identifier set — is not neutralized: the character classes
of the assert regex exclude `\n` and `^` only matches at the start of the string,
so `x;\nassert(y > 0);` passes through `disable_asserts` unchanged instead of
gaining a `//` before the token. -/
theorem c8_counterexample :
    disable_asserts "x;\nassert(y > 0);" = "x;\nassert(y > 0);" ∧
    "x;\nassert(y > 0);" ≠ "x;\n//assert(y > 0);" := by
  exact ⟨by decide, by decide⟩

theorem applyMapping_of_not_contains {file : String} {st : String × List (String × String)}
    {m : Mapping} (h : containsSub m.key st.1 = false) :
    applyMapping file st m = st := by
  unfold applyMapping
  rw [h]
  simp

theorem substFold_fst_of_no_keys (file : String) :
    ∀ (table : List Mapping) (t : String) (s : List (String × String)),
      (∀ e ∈ table, containsSub e.key t = false) →
      (table.foldl (applyMapping file) (t, s)).1 = t := by
  intro table
  induction table with
  | nil => intro t s _; rfl
  | cons m tl ih =>
    intro t s h
    rw [List.foldl_cons, applyMapping_of_not_contains (h m (List.mem_cons_self m tl))]
    exact ih t s (fun e he => h e (List.mem_cons_of_mem m he))

theorem substFold_stats_len (file : String) :
    ∀ (table : List Mapping) (t : String) (s : List (String × String)),
      ((table.foldl (applyMapping file) (t, s)).2).length ≤ s.length + table.length := by
  intro table
  induction table with
  | nil => intro t s; simp
  | cons m tl ih =>
    intro t s
    rw [List.foldl_cons]
    have hstep : ((applyMapping file (t, s) m).2).length ≤ s.length + 1 := by
      unfold applyMapping
      by_cases hc : (containsSub m.key t && m.unsupported) = true
      · simp [hc]
      · simp [hc]
    have ih2 := ih (applyMapping file (t, s) m).1 (applyMapping file (t, s) m).2
    rw [Prod.mk.eta] at ih2
    calc ((tl.foldl (applyMapping file) (applyMapping file (t, s) m)).2).length
        ≤ ((applyMapping file (t, s) m).2).length + tl.length := ih2
      _ ≤ s.length + 1 + tl.length := Nat.add_le_add_right hstep _
      _ = s.length + (tl.length + 1) := by omega

/-- C7: each mapping entry contributes at most one `(symbol, file)` pair to the
unsupported-calls statistics per file — so the whole pass appends at most one pair
per table entry, whatever the occurrence counts — and a file containing an
unsupported symbol three times yields exactly one pair. -/
theorem c7_unsupported_once :
    (∀ (table : List Mapping) (file text : String),
        (substPassStats table file text).length ≤ table.length) ∧
    substPassStats [⟨"cudaFree", "hipFree", true⟩] "f.cu"
        "cudaFree(a); cudaFree(b); cudaFree(c);" = [("cudaFree", "f.cu")] := by
  constructor
  · intro table file text
    have h := substFold_stats_len file table text []
    simpa using h
  · decide

/-- C9: identifier substitution is idempotent in the claimed sense — if the
result of a substitution pass contains none of the table's source keys as
substrings, running the same pass on that result returns it textually
unchanged (every per-entry replacement is guarded by the substring presence
check of line 171). -/
theorem c9_idempotent (table : List Mapping) (file text : String)
    (h : ∀ e ∈ table, containsSub e.key (substPassText table file text) = false) :
    substPassText table file (substPassText table file text) =
      substPassText table file text :=
  substFold_fst_of_no_keys file table _ [] h

theorem c9_witness :
    substPassText [⟨"cudaMalloc", "hipMalloc", false⟩] "f.cu"
        (substPassText [⟨"cudaMalloc", "hipMalloc", false⟩] "f.cu" "cudaMalloc(x);") =
      substPassText [⟨"cudaMalloc", "hipMalloc", false⟩] "f.cu" "cudaMalloc(x);" :=
  c9_idempotent [⟨"cudaMalloc", "hipMalloc", false⟩] "f.cu" "cudaMalloc(x);"
    (by decide)

theorem replaceScan_id_of_no_occ (key repl : Chars) :
    ∀ (fuel : Nat) (prev : Option Char) (cs : Chars),
      hasTokenOcc key prev cs = false →
      replaceScan key repl fuel prev cs = cs := by
  intro fuel
  induction fuel with
  | zero => intro prev cs _; rfl
  | succ fl ih =>
    intro prev cs h
    cases cs with
    | nil => rfl
    | cons c rest =>
      rw [hasTokenOcc] at h
      rcases Bool.or_eq_false_iff.mp h with ⟨h1, h2⟩
      rw [replaceScan, if_neg (by rw [h1]; exact Bool.false_ne_true)]
      rw [ih (some c) rest h2]

/-- C3 (amended): identifier substitution replaces a mapping key only when the
characters adjacent to the occurrence lie outside the word-character set
`[A-Za-z0-9_]` (Python's `\b`): if a text has no occurrence of the key with such
boundaries, the substitution scan leaves it unchanged.  The set does not contain
`.`, so an occurrence immediately preceded by a `.` — as in `a.cudaMalloc(x);` —
is substituted rather than left unchanged. -/
theorem c3_word_boundary_subst :
    (∀ (key repl : Chars) (fuel : Nat) (prev : Option Char) (cs : Chars),
        hasTokenOcc key prev cs = false →
        replaceScan key repl fuel prev cs = cs) ∧
    replaceTokens "cudaMalloc" "hipMalloc" "a.cudaMalloc(x);" = "a.hipMalloc(x);" := by
  constructor
  · intro key repl fuel prev cs h
    exact replaceScan_id_of_no_occ key repl fuel prev cs h
  · decide

theorem c3_witness :
    replaceScan "cudaMalloc".toList "hipMalloc".toList 15 none
        "cudaMallocs(x);".toList = "cudaMallocs(x);".toList :=
  c3_word_boundary_subst.1 "cudaMalloc".toList "hipMalloc".toList 15 none
    "cudaMallocs(x);".toList (by decide)

theorem padTo4_length (l : List Chars) : (padTo4 l).length = max l.length 4 := by
  unfold padTo4
  rw [List.length_append, List.length_replicate]
  omega

theorem padTo4_drop (l : List Chars) :
    (padTo4 l).drop l.length = List.replicate (4 - l.length) "0".toList := by
  unfold padTo4
  rw [List.drop_left]

/-- C4 (amended): for every successfully normalized launch-parameter text, the
normalized list has `max count 4` elements where `count` is the number of
comma-separated expressions — exactly 4 when `count ≤ 4`, with the missing
trailing elements zero-filled, but `count` itself when `count > 4` (no
truncation) — and the first two elements are the stripped first two expressions
wrapped in `dim3(...)`. -/
theorem c4_normalized_shape (g3 : Chars) (ps : List Chars)
    (h : normalizeLaunchParams g3 = .ok ps) :
    ps.length = max (splitParams g3).length 4 ∧
    ps.drop (splitParams g3).length =
      List.replicate (4 - (splitParams g3).length) "0".toList ∧
    ∃ a b rest, splitParams g3 = a :: b :: rest ∧
      ps.take 2 = ["dim3(".toList ++ stripWS a ++ [')'],
                   "dim3(".toList ++ stripWS b ++ [')']] := by
  unfold normalizeLaunchParams at h
  cases hs : splitParams g3 with
  | nil => rw [hs] at h; exact Except.noConfusion h
  | cons a t =>
    cases t with
    | nil => rw [hs] at h; exact Except.noConfusion h
    | cons b rest =>
      rw [hs] at h
      injection h with h2
      have hlen : (a :: b :: rest).length =
          (("dim3(".toList ++ stripWS a ++ [')']) ::
           ("dim3(".toList ++ stripWS b ++ [')']) :: rest).length := by
        simp
      refine ⟨?_, ?_, a, b, rest, rfl, ?_⟩
      · rw [← h2, padTo4_length, hlen]
      · rw [← h2, hlen, padTo4_drop, ← hlen]
      · rw [← h2]; rfl

theorem c4_witness :
    (["dim3(a)".toList, "dim3(b)".toList, "0".toList, "0".toList] : List Chars).length =
      max (splitParams "a,b".toList).length 4 ∧
    (["dim3(a)".toList, "dim3(b)".toList, "0".toList, "0".toList] : List Chars).drop
        (splitParams "a,b".toList).length =
      List.replicate (4 - (splitParams "a,b".toList).length) "0".toList ∧
    ∃ a b rest, splitParams "a,b".toList = a :: b :: rest ∧
      (["dim3(a)".toList, "dim3(b)".toList, "0".toList,
        "0".toList] : List Chars).take 2 =
        ["dim3(".toList ++ stripWS a ++ [')'],
         "dim3(".toList ++ stripWS b ++ [')']] :=
  c4_normalized_shape "a,b".toList
    ["dim3(a)".toList, "dim3(b)".toList, "0".toList, "0".toList] (by rfl)

theorem create_error_of_short (g1 g2 g3 : Chars)
    (h : (splitParams g3).length < 2) :
    create_hip_kernel g1 g2 g3 =
      .error "IndexError: list assignment index out of range" := by
  have hn : normalizeLaunchParams g3 =
      .error "IndexError: list assignment index out of range" := by
    unfold normalizeLaunchParams
    cases hs : splitParams g3 with
    | nil => rfl
    | cons a t =>
      cases t with
      | nil => rfl
      | cons b r =>
        rw [hs] at h
        simp at h
        omega
  unfold create_hip_kernel
  rw [hn]

theorem kernelSub_error_of_bad :
    ∀ (fuel : Nat) (cs g1 g2 g3 : Chars),
      (g1, g2, g3) ∈ kernelScanMatches fuel cs →
      (splitParams g3).length < 2 →
      ∃ e, kernelSub fuel cs = .error e := by
  intro fuel
  induction fuel with
  | zero =>
    intro cs g1 g2 g3 hmem _
    simp [kernelScanMatches] at hmem
  | succ fl ih =>
    intro cs g1 g2 g3 hmem hbad
    cases cs with
    | nil => simp [kernelScanMatches] at hmem
    | cons c rest =>
      cases hm : matchLaunchAt (c :: rest) with
      | none =>
        simp only [kernelScanMatches, hm] at hmem
        obtain ⟨e, he⟩ := ih rest g1 g2 g3 hmem hbad
        exact ⟨e, by simp only [kernelSub, hm, he]⟩
      | some q =>
        obtain ⟨h1, h2, h3, n⟩ := q
        simp only [kernelScanMatches, hm] at hmem
        rcases List.mem_cons.mp hmem with heq | htail
        · simp only [Prod.mk.injEq] at heq
          obtain ⟨-, -, hg3⟩ := heq
          have hcr := create_error_of_short h1 h2 h3 (hg3 ▸ hbad)
          exact ⟨"IndexError: list assignment index out of range",
            by simp only [kernelSub, hm, hcr]⟩
        · cases hcr : create_hip_kernel h1 h2 h3 with
          | error e2 => exact ⟨e2, by simp only [kernelSub, hm, hcr]⟩
          | ok hip =>
            obtain ⟨e, he⟩ := ih ((c :: rest).drop n) g1 g2 g3 htail hbad
            exact ⟨e, by simp only [kernelSub, hm, hcr, he]⟩

/-- C5: if the kernel-launch scan of the (already substituted) file text matches
a launch whose parameter text splits into fewer than two comma-separated
expressions, the per-file processing raises (returns an error, emitting no
rewritten text), and the file's contents are left unchanged, since the file is
only written after all passes succeed. -/
theorem c5_bad_launch_errors (table : List Mapping) (file text : String)
    (g1 g2 g3 : Chars)
    (hmem : (g1, g2, g3) ∈ kernelScanMatches
        (substPassText table file text).toList.length
        (substPassText table file text).toList)
    (hbad : (splitParams g3).length < 2) :
    (∃ e, preprocessorE table file text = .error e) ∧
    fileAfterRun table file text = text := by
  obtain ⟨e, he⟩ := kernelSub_error_of_bad _ _ g1 g2 g3 hmem hbad
  have hp : processKernelLaunches (substPassText table file text) = .error e := by
    unfold processKernelLaunches
    rw [he]
  have hpre : preprocessorE table file text = .error e := by
    unfold preprocessorE
    rw [hp]
  refine ⟨⟨e, hpre⟩, ?_⟩
  unfold fileAfterRun
  rw [hpre]

theorem c5_witness :
    (∃ e, preprocessorE [] "f.cu" "foo<T> <<<g>>>(x);" = .error e) ∧
    fileAfterRun [] "f.cu" "foo<T> <<<g>>>(x);" = "foo<T> <<<g>>>(x);" :=
  c5_bad_launch_errors [] "f.cu" "foo<T> <<<g>>>(x);" "foo".toList "<T>".toList
    "g".toList (by decide) (by decide)

theorem matchAssertTail_inv {g1 cs g1' g3 : Chars} {n : Nat}
    (h : matchAssertTail g1 cs = some (g1', g3, n)) :
    g1' = g1 ∧ (∀ c ∈ g3, aboundChar c = true) ∧ g3 ≠ [] := by
  unfold matchAssertTail at h
  by_cases h1 : leadsWith "assert".toList cs = true
  · rw [if_pos h1] at h
    by_cases h2 : (runLen aboundChar (cs.drop 6) == 0) = true
    · rw [if_pos h2] at h
      exact Option.noConfusion h
    · rw [if_neg h2] at h
      injection h with h3
      simp only [Prod.mk.injEq] at h3
      obtain ⟨e1, e2, -⟩ := h3
      refine ⟨e1.symm, ?_, ?_⟩
      · intro c hc
        rw [← e2] at hc
        exact all_take_of_le_runLen aboundChar (cs.drop 6) _ (Nat.le_refl _) c hc
      · have hj : runLen aboundChar (cs.drop 6) ≠ 0 := by simpa using h2
        have hlen : (List.take (runLen aboundChar (cs.drop 6)) (cs.drop 6)).length =
            runLen aboundChar (cs.drop 6) := by
          rw [List.length_take]
          exact Nat.min_eq_left (runLen_le_length _ _)
        rw [← e2]
        intro hnil
        rw [hnil] at hlen
        exact hj hlen.symm
  · rw [if_neg h1] at h
    exact Option.noConfusion h

theorem assertAlt2_inv {cs g1 g3 : Chars} {n : Nat}
    (h : ((descend (runLen aboundChar cs) 1).findSome? fun i =>
        matchAssertTail (cs.take i) (cs.drop i)) = some (g1, g3, n)) :
    (∀ c ∈ g1, aboundChar c = true) ∧ (∀ c ∈ g3, aboundChar c = true) ∧ g3 ≠ [] := by
  obtain ⟨i, hi, hsome⟩ := List.exists_of_findSome?_eq_some h
  obtain ⟨e1, hall, hne⟩ := matchAssertTail_inv hsome
  refine ⟨?_, hall, hne⟩
  rw [e1]
  intro c hc
  exact all_take_of_le_runLen aboundChar cs i (mem_descend_le hi) c hc

theorem matchAssertAt_inv {atStart : Bool} {cs g1 g3 : Chars} {n : Nat}
    (h : matchAssertAt atStart cs = some (g1, g3, n)) :
    (∀ c ∈ g1, aboundChar c = true) ∧ (∀ c ∈ g3, aboundChar c = true) ∧ g3 ≠ [] := by
  cases atStart with
  | true =>
    cases ht : matchAssertTail [] cs with
    | some r =>
      simp only [matchAssertAt, ht] at h
      rw [Option.some.injEq] at h
      rw [h] at ht
      obtain ⟨e1, hall, hne⟩ := matchAssertTail_inv ht
      refine ⟨?_, hall, hne⟩
      rw [e1]
      intro c hc
      simp at hc
    | none =>
      simp only [matchAssertAt, ht] at h
      exact assertAlt2_inv h
  | false =>
    cases ht : matchAssertTail [] cs with
    | some r =>
      simp only [matchAssertAt, ht] at h
      exact assertAlt2_inv h
    | none =>
      simp only [matchAssertAt, ht] at h
      exact assertAlt2_inv h

/-- C8 (amended): the assert neutralizer fires only where the `assert` token is
bounded by characters outside `[A-Za-z0-9_.]` that are, moreover, not newlines
(with start-of-string allowed as the left bound): every match's boundary groups
consist of such characters and the right group is non-empty.  An assert preceded
by ordinary boundary characters is neutralized with `//`; one at the start of a
line — bounded by a newline — is not (see the C8 counterexample). -/
theorem c8_boundary_chars :
    (∀ (atStart : Bool) (cs g1 g3 : Chars) (n : Nat),
        matchAssertAt atStart cs = some (g1, g3, n) →
        (∀ c ∈ g1, aboundChar c = true) ∧
        (∀ c ∈ g3, aboundChar c = true) ∧ g3 ≠ []) ∧
    disable_asserts " assert(x > 0);" = " //assert(x > 0);" := by
  constructor
  · intro atStart cs g1 g3 n h
    exact matchAssertAt_inv h
  · decide

theorem c8_witness :
    (∀ c ∈ [' '], aboundChar c = true) ∧
    (∀ c ∈ ['('], aboundChar c = true) ∧ ['('] ≠ ([] : Chars) :=
  c8_boundary_chars.1 false " assert(x);".toList [' '] ['('] 8 (by decide)

theorem matchLaunchAt_inv {cs g1 g2 g3 : Chars} {n : Nat}
    (h : matchLaunchAt cs = some (g1, g2, g3, n)) :
    ∀ c ∈ g3, dotChar c = true := by
  unfold matchLaunchAt at h
  obtain ⟨i, hi, h⟩ := List.exists_of_findSome?_eq_some h
  rw [Option.bind_eq_some] at h
  obtain ⟨r2, h1, h⟩ := h
  obtain ⟨j, hj, h⟩ := List.exists_of_findSome?_eq_some h
  rw [Option.bind_eq_some] at h
  obtain ⟨r3, h2, h⟩ := h
  obtain ⟨k, hk, h⟩ := List.exists_of_findSome?_eq_some h
  rw [Option.bind_eq_some] at h
  obtain ⟨r4, h3, h⟩ := h
  obtain ⟨m, hm, h⟩ := List.exists_of_findSome?_eq_some h
  rw [Option.map_eq_some'] at h
  obtain ⟨r5, h4, h⟩ := h
  simp only [Prod.mk.injEq] at h
  obtain ⟨-, -, hg3, -⟩ := h
  intro c hc
  rw [← hg3] at hc
  exact all_take_of_le_runLen dotChar r4 m (mem_descend_le hm) c hc

/-- C10: the kernel-launch pattern cannot match a launch whose configuration
text between `<<<` and `>>>` contains a newline — the third group is matched by
`.` without `re.DOTALL`, so every character of a matched configuration differs
from `'\n'` — and a text whose only launch has a newline inside the marker
passes through the rewriter unchanged with no kernel-launch statistic
recorded. -/
theorem c10_no_newline_config :
    (∀ (cs g1 g2 g3 : Chars) (n : Nat),
        matchLaunchAt cs = some (g1, g2, g3, n) → ∀ c ∈ g3, ¬ c = '\n') ∧
    processKernelLaunches "foo<T> <<<a,\nb>>>(x);" =
      .ok ("foo<T> <<<a,\nb>>>(x);", []) := by
  constructor
  · intro cs g1 g2 g3 n h c hc
    have hd := matchLaunchAt_inv h c hc
    simpa [dotChar] using hd
  · rfl

theorem c10_witness :
    ∀ c ∈ "g,b".toList, ¬ c = '\n' :=
  c10_no_newline_config.1 "k<T> <<<g,b>>>(".toList "k".toList "<T>".toList
    "g,b".toList 15 (by rfl)

end Hipify
